import Mathlib

/-!
Verification of the mimage chunked-image core: a shallow embedding of the
coordinate mapping, the deferred-operation queue, the chunk cache and the
read path, with theorems settling the specified properties against it.

Conventions of the embedding:
* Go `image.Rectangle` values are half-open rectangles over `Int`.
* Go `float64` coordinates are modelled as `ℚ`; the conversions the code
  performs (`math.Min`/`math.Max`, `int(f)` truncation toward zero) are
  modelled exactly.
* Go integer division truncates toward zero, which is `Int.tdiv`.
-/

namespace Mimage

/-- Go image.Point: a pair of integer coordinates. -/
structure Pt where
  x : Int
  y : Int
deriving DecidableEq

/-- Go image.Rectangle: the half-open rectangle of points p with
Min ≤ p and p < Max componentwise. -/
structure Rectangle where
  minX : Int
  minY : Int
  maxX : Int
  maxY : Int
deriving DecidableEq

/-- Go Rectangle.Empty: the rectangle contains no point. -/
def Rectangle.empty (r : Rectangle) : Bool :=
  decide (r.maxX ≤ r.minX) || decide (r.maxY ≤ r.minY)

/-- Go Rectangle.Sub: translate the rectangle by the negation of p. -/
def Rectangle.sub (r : Rectangle) (p : Pt) : Rectangle :=
  ⟨r.minX - p.x, r.minY - p.y, r.maxX - p.x, r.maxY - p.y⟩

/-- Go image.ZR, the zero rectangle. -/
def zeroRect : Rectangle := ⟨0, 0, 0, 0⟩

/-- Go Rectangle.Intersect: componentwise max of the mins and min of the
maxes; the zero rectangle when the result is empty. -/
def Rectangle.intersect (r s : Rectangle) : Rectangle :=
  let t : Rectangle :=
    ⟨max r.minX s.minX, max r.minY s.minY, min r.maxX s.maxX, min r.maxY s.maxY⟩
  if t.empty then zeroRect else t

/-- Go image.Rect: the constructor canonicalizes by swapping each pair of
coordinates that is given in inverted order. -/
def imageRect (x0 y0 x1 y1 : Int) : Rectangle :=
  ⟨min x0 x1, min y0 y1, max x0 x1, max y0 y1⟩

/-- Go integer division, truncating toward zero. -/
def goDiv (a b : Int) : Int := Int.tdiv a b

/-- The fields of Mimage that the core logic reads: the canvas bounds and
the chunk size. -/
structure Config where
  bounds : Rectangle
  chunkSize : Int
deriving DecidableEq

/-- Mimage.Width. -/
def Config.width (m : Config) : Int := m.bounds.maxX - m.bounds.minX

/-- Mimage.Height. -/
def Config.height (m : Config) : Int := m.bounds.maxY - m.bounds.minY

/-- Source toChunk: integer-divides both coordinates by the chunk size.
The validity check is transcribed exactly as written in the source, which
compares x against bounds.Max.Y (not bounds.Max.X). -/
def toChunk (m : Config) (x y : Int) : Int × Int × Bool :=
  (goDiv x m.chunkSize, goDiv y m.chunkSize,
    decide (m.bounds.minX ≤ x) && decide (x < m.bounds.maxY) &&
    decide (m.bounds.minY ≤ y) && decide (y < m.bounds.maxY))

/-- The inclusive integer range from a to b as a list, empty when b < a. -/
def intRange (a b : Int) : List Int :=
  (List.range (b + 1 - a).toNat).map (fun (i : Nat) => a + (i : Int))

/-- Source chunksWithin: intersect the rectangle with the canvas bounds
translated by (-1,-1), emit nothing when that intersection is empty, and
otherwise emit every chunk coordinate from the chunk of the intersection's
min corner to the chunk of its max corner, x-major, in channel emission
order. -/
def chunksWithin (m : Config) (r : Rectangle) : List (Int × Int) :=
  let rc := r.intersect (m.bounds.sub ⟨1, 1⟩)
  if rc.empty then []
  else
    let f := toChunk m rc.minX rc.minY
    let l := toChunk m rc.maxX rc.maxY
    (intRange f.1 l.1).flatMap (fun x => (intRange f.2.1 l.2.1).map (fun y => (x, y)))

/-- The clamp rectangle chunksWithin actually uses. -/
def clampRect (m : Config) (r : Rectangle) : Rectangle :=
  r.intersect (m.bounds.sub ⟨1, 1⟩)

/-- Modelled from the spec: the canvas bounds shrunk by one unit on the
high edge, the rectangle the spec says chunksWithin clamps against. -/
def shrinkHighEdge (r : Rectangle) : Rectangle :=
  ⟨r.minX, r.minY, r.maxX - 1, r.maxY - 1⟩

/-- A nonempty half-open rectangle that lies inside the canvas and whose
pixels all fall in a single chunk: its lowest pixel and its highest pixel
(the max corner minus one on each axis) are in the same chunk. -/
def rectInOneChunk (m : Config) (r : Rectangle) : Bool :=
  !r.empty &&
  decide (m.bounds.minX ≤ r.minX) && decide (r.maxX ≤ m.bounds.maxX) &&
  decide (m.bounds.minY ≤ r.minY) && decide (r.maxY ≤ m.bounds.maxY) &&
  decide ((toChunk m r.minX r.minY).1 = (toChunk m (r.maxX - 1) (r.maxY - 1)).1) &&
  decide ((toChunk m r.minX r.minY).2.1 = (toChunk m (r.maxX - 1) (r.maxY - 1)).2.1)

/-- A 1000 by 1000 canvas with the default chunk size 500. -/
def cfg1000 : Config := ⟨⟨0, 0, 1000, 1000⟩, 500⟩

/-- A 100 by 200 canvas with chunk size 50. -/
def cfgNonSquare : Config := ⟨⟨0, 0, 100, 200⟩, 50⟩

/-- C3: toChunk divides coordinates by the chunk size, but on the 100x200
canvas it reports the out-of-bounds point (150, 50) as in bounds: the
source compares x against bounds.Max.Y instead of bounds.Max.X, so the
validity flag is true even though x is not below bounds.Max.X. -/
theorem toChunk_inBounds_wrong_axis :
    toChunk cfgNonSquare 150 50 = (3, 1, true) ∧
    ¬ (150 < cfgNonSquare.bounds.maxX) := by decide

/-- C2 counterexample: the half-open rectangle [0,500) x [0,500) lies
inside the canvas with every pixel in chunk (0,0), yet chunksWithin yields
four keys rather than exactly one; and the rectangle [-3,0) x [-3,0) has an
empty intersection with the canvas bounds shrunk by one on the high edge,
yet chunksWithin yields a key because the source intersects with the bounds
translated by (-1,-1) instead. -/
theorem chunksWithin_claim_counterexample :
    rectInOneChunk cfg1000 ⟨0, 0, 500, 500⟩ = true ∧
    chunksWithin cfg1000 ⟨0, 0, 500, 500⟩ = [(0, 0), (0, 1), (1, 0), (1, 1)] ∧
    (Rectangle.intersect ⟨-3, -3, 0, 0⟩ (shrinkHighEdge cfg1000.bounds)).empty = true ∧
    chunksWithin cfg1000 ⟨-3, -3, 0, 0⟩ = [(0, 0)] := by decide

theorem mem_intRange {a : Int} (lo hi : Int) :
    a ∈ intRange lo hi ↔ lo ≤ a ∧ a ≤ hi := by
  unfold intRange
  rw [List.mem_map]
  constructor
  · rintro ⟨i, hm, rfl⟩
    rw [List.mem_range] at hm
    omega
  · rintro ⟨h1, h2⟩
    refine ⟨(a - lo).toNat, ?_, ?_⟩
    · rw [List.mem_range]
      omega
    · omega

theorem intRange_nodup (lo hi : Int) : (intRange lo hi).Nodup := by
  unfold intRange
  refine List.Nodup.map (fun i j h => ?_) (List.nodup_range _)
  omega

theorem intRange_length (lo hi : Int) :
    (intRange lo hi).length = (hi + 1 - lo).toNat := by
  unfold intRange
  rw [List.length_map, List.length_range]

theorem flatMap_pair_nodup (xs ys : List Int) (hx : xs.Nodup) (hy : ys.Nodup) :
    (xs.flatMap (fun x => ys.map (fun y => (x, y)))).Nodup := by
  induction xs with
  | nil => simp
  | cons a xs ih =>
    rw [List.flatMap_cons, List.nodup_append]
    refine ⟨List.Nodup.map (fun u v h => ?_) hy, ih (List.Nodup.of_cons hx), ?_⟩
    · exact congrArg Prod.snd h
    · intro p hp hq
      obtain ⟨y, hy, hpe⟩ := List.mem_map.mp hp
      obtain ⟨x, hxmem, hmem⟩ := List.mem_flatMap.mp hq
      obtain ⟨y', hy', hpe'⟩ := List.mem_map.mp hmem
      have h1 : a = x := by
        have h2 := congrArg Prod.fst (hpe.trans hpe'.symm)
        simpa using h2
      exact (List.nodup_cons.mp hx).1 (h1 ▸ hxmem)

theorem flatMap_pair_length (xs ys : List Int) :
    (xs.flatMap (fun x => ys.map (fun y => (x, y)))).length =
      xs.length * ys.length := by
  induction xs with
  | nil => simp
  | cons a xs ih =>
    rw [List.flatMap_cons, List.length_append, ih, List.length_map,
      List.length_cons]
    ring

theorem mem_flatMap_pair {k : Int × Int} (xs ys : List Int) :
    k ∈ xs.flatMap (fun x => ys.map (fun y => (x, y))) ↔
      k.1 ∈ xs ∧ k.2 ∈ ys := by
  rcases k with ⟨kx, ky⟩
  simp only [List.mem_flatMap, List.mem_map]
  constructor
  · rintro ⟨x, hx, y, hy, h⟩
    cases h
    exact ⟨hx, hy⟩
  · rintro ⟨hx, hy⟩
    exact ⟨kx, hx, ky, hy, rfl⟩

/-- C2 amended: chunksWithin clamps against the canvas bounds translated
by (-1,-1); the sequence is empty exactly when that intersection is empty,
and otherwise yields precisely the rectangular span of chunk keys between
the chunks of the intersection's min and max corners (max corner included,
so a rectangle whose exclusive max edge lies on an interior chunk boundary
also yields the adjacent chunks), without duplicates and without gaps; it
yields exactly one key iff both corners fall in the same chunk. -/
theorem chunksWithin_span_spec (m : Config) (r : Rectangle) :
    ((clampRect m r).empty = true → chunksWithin m r = []) ∧
    (∀ k : Int × Int, k ∈ chunksWithin m r ↔
      (clampRect m r).empty = false ∧
      (toChunk m (clampRect m r).minX (clampRect m r).minY).1 ≤ k.1 ∧
      k.1 ≤ (toChunk m (clampRect m r).maxX (clampRect m r).maxY).1 ∧
      (toChunk m (clampRect m r).minX (clampRect m r).minY).2.1 ≤ k.2 ∧
      k.2 ≤ (toChunk m (clampRect m r).maxX (clampRect m r).maxY).2.1) ∧
    (chunksWithin m r).Nodup ∧
    ((chunksWithin m r).length = 1 ↔
      (clampRect m r).empty = false ∧
      (toChunk m (clampRect m r).minX (clampRect m r).minY).1 =
        (toChunk m (clampRect m r).maxX (clampRect m r).maxY).1 ∧
      (toChunk m (clampRect m r).minX (clampRect m r).minY).2.1 =
        (toChunk m (clampRect m r).maxX (clampRect m r).maxY).2.1) := by
  have hdef : chunksWithin m r =
      if (clampRect m r).empty then []
      else
        (intRange (toChunk m (clampRect m r).minX (clampRect m r).minY).1
            (toChunk m (clampRect m r).maxX (clampRect m r).maxY).1).flatMap
          (fun x =>
            (intRange (toChunk m (clampRect m r).minX (clampRect m r).minY).2.1
                (toChunk m (clampRect m r).maxX (clampRect m r).maxY).2.1).map
              (fun y => (x, y))) := rfl
  set fx := (toChunk m (clampRect m r).minX (clampRect m r).minY).1 with hfx
  set fy := (toChunk m (clampRect m r).minX (clampRect m r).minY).2.1 with hfy
  set lx := (toChunk m (clampRect m r).maxX (clampRect m r).maxY).1 with hlx
  set ly := (toChunk m (clampRect m r).maxX (clampRect m r).maxY).2.1 with hly
  by_cases he : (clampRect m r).empty
  · rw [hdef, if_pos he]
    refine ⟨fun _ => rfl, fun k => ?_, List.nodup_nil, ?_⟩
    · simp [he]
    · simp [he]
  · rw [hdef, if_neg he]
    refine ⟨fun h => absurd h he, fun k => ?_, ?_, ?_⟩
    · rw [mem_flatMap_pair, mem_intRange, mem_intRange]
      constructor
      · rintro ⟨⟨h1, h2⟩, h3, h4⟩
        exact ⟨by simpa using he, h1, h2, h3, h4⟩
      · rintro ⟨_, h1, h2, h3, h4⟩
        exact ⟨⟨h1, h2⟩, h3, h4⟩
    · exact flatMap_pair_nodup _ _ (intRange_nodup _ _) (intRange_nodup _ _)
    · rw [flatMap_pair_length, intRange_length, intRange_length]
      constructor
      · intro h
        have h1 := Nat.eq_one_of_mul_eq_one_right h
        have h2 := Nat.eq_one_of_mul_eq_one_left h
        refine ⟨by simpa using he, by omega, by omega⟩
      · rintro ⟨_, h1, h2⟩
        rw [h1, h2]
        simp

/-- Witness for the amended C2 theorem: on the 1000x1000 canvas the
rectangle [400,600) x [400,600) spans four chunks and key (1,1) is among
them, while a rectangle entirely left of the canvas yields nothing. -/
theorem chunksWithin_span_spec_witness :
    (1, 1) ∈ chunksWithin cfg1000 ⟨400, 400, 600, 600⟩ ∧
    chunksWithin cfg1000 ⟨-10, 0, -5, 50⟩ = [] := by
  constructor
  · exact ((chunksWithin_span_spec cfg1000 ⟨400, 400, 600, 600⟩).2.1 (1, 1)).mpr
      ⟨by decide, by decide, by decide, by decide, by decide⟩
  · exact (chunksWithin_span_spec cfg1000 ⟨-10, 0, -5, 50⟩).1 (by decide)

/-- The deferred action records appended to an operation's queue. Gradient,
color and image payloads are abstract tokens; a drawImage record keeps the
bounds of the drawn image because the queuing call reads them. -/
inductive Action where
  | setFillStyle (g : Nat)
  | setStrokeStyle (g : Nat)
  | setLineWidth (w : ℚ)
  | setColor (c : Nat)
  | setPixel (x y : Int)
  | setMask (other : Nat)
  | invertMask
  | moveTo (x y : ℚ)
  | lineTo (x y : ℚ)
  | closePath
  | drawRectangle (x y w h : ℚ)
  | rotateAbout (angle x y : ℚ)
  | drawEllipse (x y rx ry : ℚ)
  | fill
  | stroke
  | clear
  | drawImage (ib : Rectangle) (x y : Int)
deriving DecidableEq

/-- The operation struct: the queue plus the running bounding box and the
accumulated line width. minX and minY start at width+1 and height+1; the
other fields start at the float64 zero value. -/
structure OpState where
  queue : List Action
  minX : ℚ
  minY : ℚ
  maxX : ℚ
  maxY : ℚ
  maxlineWidth : ℚ
deriving DecidableEq

/-- newOperation. -/
def newOperation (m : Config) : OpState :=
  { queue := [], minX := (m.width : ℚ) + 1, minY := (m.height : ℚ) + 1,
    maxX := 0, maxY := 0, maxlineWidth := 0 }

/-- Go math.Min on float64 coordinates, modelled on the rationals. -/
def goMin (a b : ℚ) : ℚ := if a ≤ b then a else b

/-- Go math.Max on float64 coordinates, modelled on the rationals. -/
def goMax (a b : ℚ) : ℚ := if a ≤ b then b else a

/-- minMax: grow the running bounding box to cover (x, y). -/
def OpState.minMax (o : OpState) (x y : ℚ) : OpState :=
  { o with minX := goMin o.minX x, maxX := goMax o.maxX x,
           minY := goMin o.minY y, maxY := goMax o.maxY y }

/-- SetFillStyle. -/
def OpState.SetFillStyle (o : OpState) (g : Nat) : OpState :=
  { o with queue := o.queue ++ [Action.setFillStyle g] }

/-- SetStrokeStyle. -/
def OpState.SetStrokeStyle (o : OpState) (g : Nat) : OpState :=
  { o with queue := o.queue ++ [Action.setStrokeStyle g] }

/-- SetLineWidth, transcribed exactly: the argument is first replaced by
min(1, w), and maxlineWidth grows to the max of itself and that value. -/
def OpState.SetLineWidth (o : OpState) (w0 : ℚ) : OpState :=
  let w := goMin 1 w0
  { o with maxlineWidth := goMax o.maxlineWidth w,
           queue := o.queue ++ [Action.setLineWidth w] }

/-- SetColor. -/
def OpState.SetColor (o : OpState) (c : Nat) : OpState :=
  { o with queue := o.queue ++ [Action.setColor c] }

/-- SetPixel. -/
def OpState.SetPixel (o : OpState) (x y : Int) : OpState :=
  let o1 := o.minMax (x : ℚ) (y : ℚ)
  { o1 with queue := o1.queue ++ [Action.setPixel x y] }

/-- SetMask. -/
def OpState.SetMask (o : OpState) (other : Nat) : OpState :=
  { o with queue := o.queue ++ [Action.setMask other] }

/-- InvertMask. -/
def OpState.InvertMask (o : OpState) : OpState :=
  { o with queue := o.queue ++ [Action.invertMask] }

/-- MoveTo. -/
def OpState.MoveTo (o : OpState) (x y : ℚ) : OpState :=
  let o1 := o.minMax x y
  { o1 with queue := o1.queue ++ [Action.moveTo x y] }

/-- LineTo. -/
def OpState.LineTo (o : OpState) (x y : ℚ) : OpState :=
  let o1 := o.minMax x y
  { o1 with queue := o1.queue ++ [Action.lineTo x y] }

/-- ClosePath. -/
def OpState.ClosePath (o : OpState) : OpState :=
  { o with queue := o.queue ++ [Action.closePath] }

/-- DrawRectangle. -/
def OpState.DrawRectangle (o : OpState) (x y w h : ℚ) : OpState :=
  let o1 := (o.minMax x y).minMax (x + w) (y + h)
  { o1 with queue := o1.queue ++ [Action.drawRectangle x y w h] }

/-- RotateAbout: queued without touching the bounding box. -/
def OpState.RotateAbout (o : OpState) (angle x y : ℚ) : OpState :=
  { o with queue := o.queue ++ [Action.rotateAbout angle x y] }

/-- DrawEllipse. -/
def OpState.DrawEllipse (o : OpState) (x y rx ry : ℚ) : OpState :=
  let o1 := (o.minMax (x - rx) (y - ry)).minMax (x + rx) (y + ry)
  { o1 with queue := o1.queue ++ [Action.drawEllipse x y rx ry] }

/-- Fill. -/
def OpState.Fill (o : OpState) : OpState :=
  { o with queue := o.queue ++ [Action.fill] }

/-- Stroke. -/
def OpState.Stroke (o : OpState) : OpState :=
  { o with queue := o.queue ++ [Action.stroke] }

/-- Clear: queued, and the bounding box is set to the whole canvas bounds. -/
def OpState.Clear (o : OpState) (m : Config) : OpState :=
  { o with queue := o.queue ++ [Action.clear],
           minX := (m.bounds.minX : ℚ), minY := (m.bounds.minY : ℚ),
           maxX := (m.bounds.maxX : ℚ), maxY := (m.bounds.maxY : ℚ) }

/-- DrawImage: grows the box by the drawn image's bounds as the source
computes them. -/
def OpState.DrawImage (o : OpState) (ib : Rectangle) (x y : Int) : OpState :=
  let o1 := (o.minMax ((x + ib.minX : Int) : ℚ) ((y + ib.minY : Int) : ℚ)).minMax
    ((x + ib.maxX - ib.minX : Int) : ℚ) ((y + ib.maxY - ib.minY : Int) : ℚ)
  { o1 with queue := o1.queue ++ [Action.drawImage ib x y] }

/-- Go float64-to-int conversion: truncation toward zero of a rational. -/
def goTrunc (q : ℚ) : Int := Int.tdiv q.num (q.den : Int)

/-- The box computed at the top of Do: pad each side by maxlineWidth, clamp
to [0, width] and [0, height], truncate to int, and build the
canonicalizing image.Rect from the four values. -/
def doBox (m : Config) (o : OpState) : Rectangle :=
  let lowX := goMax 0 (o.minX - o.maxlineWidth)
  let highX := goMin ((m.width : Int) : ℚ) (o.maxX + o.maxlineWidth)
  let lowY := goMax 0 (o.minY - o.maxlineWidth)
  let highY := goMin ((m.height : Int) : ℚ) (o.maxY + o.maxlineWidth)
  imageRect (goTrunc lowX) (goTrunc lowY) (goTrunc highX) (goTrunc highY)

/-- The chunk coordinates Do hands to its workers. -/
def doChunks (m : Config) (o : OpState) : List (Int × Int) :=
  chunksWithin m (doBox m o)

/-- C1: the code evaluated at the failing input SetLineWidth(5): the
recorded maxlineWidth is 1, not 5, and the queued action also carries
width 1, because SetLineWidth replaces w by min(1, w). -/
theorem setLineWidth_clamps_to_one :
    ((newOperation cfg1000).SetLineWidth 5).maxlineWidth = 1 ∧
    ((newOperation cfg1000).SetLineWidth 5).queue = [Action.setLineWidth 1] ∧
    (1 : ℚ) ≠ 5 := by decide

/-- C5: the code evaluated at the failing input: an operation consisting of
SetColor and a single SetPixel(300, 300) has the degenerate bounding box
Rect(300, 300, 300, 300), which is empty, so Do enumerates no chunks, the
pixel is never written, and the round trip cannot return the written
color. -/
theorem setPixel_operation_empty_box :
    doBox cfg1000 (((newOperation cfg1000).SetColor 7).SetPixel 300 300) =
      ⟨300, 300, 300, 300⟩ ∧
    doChunks cfg1000 (((newOperation cfg1000).SetColor 7).SetPixel 300 300) = [] := by
  have h1 : ((newOperation cfg1000).SetColor 7).SetPixel 300 300 =
      { queue := [Action.setColor 7, Action.setPixel 300 300],
        minX := 300, minY := 300, maxX := 300, maxY := 300, maxlineWidth := 0 } := by
    norm_num [newOperation, OpState.SetColor, OpState.SetPixel, OpState.minMax,
      cfg1000, Config.width, Config.height, goMin, goMax]
  have h2 : doBox cfg1000 (((newOperation cfg1000).SetColor 7).SetPixel 300 300) =
      ⟨300, 300, 300, 300⟩ := by
    rw [h1]
    norm_num [doBox, goMin, goMax, goTrunc, imageRect, Int.tdiv_one,
      cfg1000, Config.width, Config.height]
  refine ⟨h2, ?_⟩
  show chunksWithin cfg1000 _ = []
  rw [h2]
  decide

/-- The queuing interface of Operation: one constructor per public queuing
call, carrying the call's arguments. -/
inductive QCall where
  | qSetFillStyle (g : Nat)
  | qSetStrokeStyle (g : Nat)
  | qSetLineWidth (w : ℚ)
  | qSetColor (c : Nat)
  | qSetPixel (x y : Int)
  | qSetMask (other : Nat)
  | qInvertMask
  | qMoveTo (x y : ℚ)
  | qLineTo (x y : ℚ)
  | qClosePath
  | qDrawRectangle (x y w h : ℚ)
  | qRotateAbout (angle x y : ℚ)
  | qDrawEllipse (x y rx ry : ℚ)
  | qFill
  | qStroke
  | qClear
  | qDrawImage (ib : Rectangle) (x y : Int)

/-- Dispatch one queuing call to the corresponding Operation method. -/
def qapply (m : Config) (o : OpState) : QCall → OpState
  | .qSetFillStyle g => o.SetFillStyle g
  | .qSetStrokeStyle g => o.SetStrokeStyle g
  | .qSetLineWidth w => o.SetLineWidth w
  | .qSetColor c => o.SetColor c
  | .qSetPixel x y => o.SetPixel x y
  | .qSetMask other => o.SetMask other
  | .qInvertMask => o.InvertMask
  | .qMoveTo x y => o.MoveTo x y
  | .qLineTo x y => o.LineTo x y
  | .qClosePath => o.ClosePath
  | .qDrawRectangle x y w h => o.DrawRectangle x y w h
  | .qRotateAbout a x y => o.RotateAbout a x y
  | .qDrawEllipse x y rx ry => o.DrawEllipse x y rx ry
  | .qFill => o.Fill
  | .qStroke => o.Stroke
  | .qClear => o.Clear m
  | .qDrawImage ib x y => o.DrawImage ib x y

/-- The style, color and mask setters: the queuing calls that touch
neither the bounding box nor the line width. -/
def styleOnly : QCall → Bool
  | .qSetFillStyle _ => true
  | .qSetStrokeStyle _ => true
  | .qSetColor _ => true
  | .qSetMask _ => true
  | .qInvertMask => true
  | _ => false

theorem styleOnly_preserves_box (m : Config) (o : OpState) (q : QCall)
    (hq : styleOnly q = true) :
    (qapply m o q).minX = o.minX ∧ (qapply m o q).minY = o.minY ∧
    (qapply m o q).maxX = o.maxX ∧ (qapply m o q).maxY = o.maxY ∧
    (qapply m o q).maxlineWidth = o.maxlineWidth := by
  cases q <;> simp_all [styleOnly, qapply, OpState.SetFillStyle,
    OpState.SetStrokeStyle, OpState.SetColor, OpState.SetMask,
    OpState.InvertMask]

theorem styleOnly_foldl_box (m : Config) (calls : List QCall) (o : OpState)
    (h : ∀ q ∈ calls, styleOnly q = true) :
    (calls.foldl (qapply m) o).minX = o.minX ∧
    (calls.foldl (qapply m) o).minY = o.minY ∧
    (calls.foldl (qapply m) o).maxX = o.maxX ∧
    (calls.foldl (qapply m) o).maxY = o.maxY ∧
    (calls.foldl (qapply m) o).maxlineWidth = o.maxlineWidth := by
  induction calls generalizing o with
  | nil => exact ⟨rfl, rfl, rfl, rfl, rfl⟩
  | cons q rest ih =>
    have hq := h q (List.mem_cons_self q rest)
    have hrest : ∀ p ∈ rest, styleOnly p = true :=
      fun p hp => h p (List.mem_cons_of_mem q hp)
    have hpres := styleOnly_preserves_box m o q hq
    have hind := ih (qapply m o q) hrest
    rw [List.foldl_cons]
    exact ⟨hind.1.trans hpres.1, hind.2.1.trans hpres.2.1,
      hind.2.2.1.trans hpres.2.2.1, hind.2.2.2.1.trans hpres.2.2.2.1,
      hind.2.2.2.2.trans hpres.2.2.2.2⟩

/-- The one-pixel canvas with the default chunk size. -/
def cfg1x1 : Config := ⟨⟨0, 0, 1, 1⟩, 500⟩

/-- C10 counterexample: on the 1x1 canvas the empty-queue operation's box
canonicalizes to Rect(0,0,2,2), which covers the canvas, yet chunksWithin
intersects it with the bounds translated by (-1,-1), namely
Rect(-1,-1,0,0), whose intersection is empty, so Do visits no chunk at all
even though the canvas is nonempty and its pixel lies in chunk (0,0). -/
theorem do_empty_queue_1x1_counterexample :
    doBox cfg1x1 (newOperation cfg1x1) = ⟨0, 0, 2, 2⟩ ∧
    doChunks cfg1x1 (newOperation cfg1x1) = [] ∧
    cfg1x1.bounds.empty = false ∧
    toChunk cfg1x1 0 0 = (0, 0, true) := by
  have h1 : doBox cfg1x1 (newOperation cfg1x1) = ⟨0, 0, 2, 2⟩ := by
    norm_num [doBox, newOperation, goMin, goMax, goTrunc, imageRect,
      Int.tdiv_one, cfg1x1, Config.width, Config.height]
  refine ⟨h1, ?_, by decide, by decide⟩
  show chunksWithin cfg1x1 _ = []
  rw [h1]
  decide

theorem goTrunc_intCast (n : Int) : goTrunc ((n : Int) : ℚ) = n := by
  simp [goTrunc, Int.tdiv_one]

theorem doBox_of_initial_box (W H cs : Int) (o : OpState)
    (hW : 2 ≤ W) (hH : 2 ≤ H)
    (h1 : o.minX = (W : ℚ) + 1) (h2 : o.minY = (H : ℚ) + 1)
    (h3 : o.maxX = 0) (h4 : o.maxY = 0) (h5 : o.maxlineWidth = 0) :
    doBox ⟨⟨0, 0, W, H⟩, cs⟩ o = ⟨0, 0, W + 1, H + 1⟩ := by
  have hWq : (0 : ℚ) ≤ (W : ℚ) + 1 - 0 := by
    have : (2 : ℚ) ≤ (W : ℚ) := by exact_mod_cast hW
    linarith
  have hHq : (0 : ℚ) ≤ (H : ℚ) + 1 - 0 := by
    have : (2 : ℚ) ≤ (H : ℚ) := by exact_mod_cast hH
    linarith
  have hWn : ¬ ((W : ℚ) ≤ 0 + 0) := by
    have : (2 : ℚ) ≤ (W : ℚ) := by exact_mod_cast hW
    linarith
  have hHn : ¬ ((H : ℚ) ≤ 0 + 0) := by
    have : (2 : ℚ) ≤ (H : ℚ) := by exact_mod_cast hH
    linarith
  have hwidth : (⟨⟨0, 0, W, H⟩, cs⟩ : Config).width = W := by
    simp [Config.width]
  have hheight : (⟨⟨0, 0, W, H⟩, cs⟩ : Config).height = H := by
    simp [Config.height]
  unfold doBox
  rw [h1, h2, h3, h4, h5, hwidth, hheight]
  rw [show goMax 0 ((W : ℚ) + 1 - 0) = (W : ℚ) + 1 - 0 from if_pos hWq]
  rw [show goMax 0 ((H : ℚ) + 1 - 0) = (H : ℚ) + 1 - 0 from if_pos hHq]
  rw [show goMin ((W : Int) : ℚ) (0 + 0) = 0 + 0 from if_neg hWn]
  rw [show goMin ((H : Int) : ℚ) (0 + 0) = 0 + 0 from if_neg hHn]
  rw [show ((W : ℚ) + 1 - 0) = ((W + 1 : Int) : ℚ) by push_cast; ring]
  rw [show ((H : ℚ) + 1 - 0) = ((H + 1 : Int) : ℚ) by push_cast; ring]
  rw [show ((0 : ℚ) + 0) = ((0 : Int) : ℚ) by norm_num]
  simp only [goTrunc_intCast]
  unfold imageRect
  rw [min_eq_right (by omega : (0 : Int) ≤ W + 1),
    min_eq_right (by omega : (0 : Int) ≤ H + 1),
    max_eq_left (by omega : (0 : Int) ≤ W + 1),
    max_eq_left (by omega : (0 : Int) ≤ H + 1)]

theorem chunksWithin_full_box (W H cs : Int)
    (hW : 2 ≤ W) (hH : 2 ≤ H) (hcs : 0 < cs) :
    chunksWithin ⟨⟨0, 0, W, H⟩, cs⟩ ⟨0, 0, W + 1, H + 1⟩ =
      (intRange 0 (goDiv (W - 1) cs)).flatMap
        (fun x => (intRange 0 (goDiv (H - 1) cs)).map (fun y => (x, y))) ∧
    (intRange 0 (goDiv (W - 1) cs)).flatMap
        (fun x => (intRange 0 (goDiv (H - 1) cs)).map (fun y => (x, y))) ≠ [] := by
  have hclamp :
      Rectangle.intersect ⟨0, 0, W + 1, H + 1⟩
        ((⟨⟨0, 0, W, H⟩, cs⟩ : Config).bounds.sub ⟨1, 1⟩) =
      ⟨0, 0, W - 1, H - 1⟩ := by
    show Rectangle.intersect ⟨0, 0, W + 1, H + 1⟩ ⟨0 - 1, 0 - 1, W - 1, H - 1⟩ = _
    unfold Rectangle.intersect
    have c1 : max (0 : Int) (0 - 1) = 0 := max_eq_left (by omega)
    have c2 : min (W + 1) (W - 1) = W - 1 := min_eq_right (by omega)
    have c3 : min (H + 1) (H - 1) = H - 1 := min_eq_right (by omega)
    simp only [c1, c2, c3]
    have hne : Rectangle.empty ⟨0, 0, W - 1, H - 1⟩ = false := by
      unfold Rectangle.empty
      rw [decide_eq_false (by omega : ¬ (W - 1 ≤ 0)),
        decide_eq_false (by omega : ¬ (H - 1 ≤ 0))]
      rfl
    simp [hne]
  have hempty : Rectangle.empty ⟨0, 0, W - 1, H - 1⟩ = false := by
    unfold Rectangle.empty
    rw [decide_eq_false (by omega : ¬ (W - 1 ≤ 0)),
      decide_eq_false (by omega : ¬ (H - 1 ≤ 0))]
    rfl
  constructor
  · show (if (Rectangle.intersect ⟨0, 0, W + 1, H + 1⟩
        ((⟨⟨0, 0, W, H⟩, cs⟩ : Config).bounds.sub ⟨1, 1⟩)).empty then []
      else _) = _
    rw [hclamp]
    rw [if_neg (by rw [hempty]; exact Bool.false_ne_true)]
    show (intRange (goDiv 0 cs) (goDiv (W - 1) cs)).flatMap
        (fun x => (intRange (goDiv 0 cs) (goDiv (H - 1) cs)).map (fun y => (x, y))) = _
    rw [show goDiv 0 cs = 0 from Int.zero_tdiv cs]
  · have hdx : 0 ≤ goDiv (W - 1) cs := Int.tdiv_nonneg (by omega) (by omega)
    have hdy : 0 ≤ goDiv (H - 1) cs := Int.tdiv_nonneg (by omega) (by omega)
    intro hnil
    have hlen := congrArg List.length hnil
    rw [flatMap_pair_length, intRange_length, intRange_length] at hlen
    simp only [List.length_nil] at hlen
    rcases Nat.mul_eq_zero.mp hlen with h | h <;> omega

/-- C10 amended: on a canvas Rect(0,0,W,H) with W and H at least 2 and a
positive chunk size, an operation whose queue was built only from style,
color and mask calls (in particular an empty queue) keeps the inverted
initial bounding box, Do's image.Rect call canonicalizes it by swapping
into Rect(0,0,W+1,H+1) covering the whole canvas, and the enumeration
visits exactly the full chunk grid of the canvas, which is nonempty. On a
canvas of width or height 1 this fails: Do visits no chunk at all. -/
theorem do_empty_queue_visits_all_chunks (W H cs : Int) (calls : List QCall)
    (hW : 2 ≤ W) (hH : 2 ≤ H) (hcs : 0 < cs)
    (hstyle : ∀ q ∈ calls, styleOnly q = true) :
    doBox ⟨⟨0, 0, W, H⟩, cs⟩
        (calls.foldl (qapply ⟨⟨0, 0, W, H⟩, cs⟩)
          (newOperation ⟨⟨0, 0, W, H⟩, cs⟩)) = ⟨0, 0, W + 1, H + 1⟩ ∧
    doChunks ⟨⟨0, 0, W, H⟩, cs⟩
        (calls.foldl (qapply ⟨⟨0, 0, W, H⟩, cs⟩)
          (newOperation ⟨⟨0, 0, W, H⟩, cs⟩)) =
      (intRange 0 (goDiv (W - 1) cs)).flatMap
        (fun x => (intRange 0 (goDiv (H - 1) cs)).map (fun y => (x, y))) ∧
    doChunks ⟨⟨0, 0, W, H⟩, cs⟩
        (calls.foldl (qapply ⟨⟨0, 0, W, H⟩, cs⟩)
          (newOperation ⟨⟨0, 0, W, H⟩, cs⟩)) ≠ [] := by
  obtain ⟨e1, e2, e3, e4, e5⟩ :=
    styleOnly_foldl_box ⟨⟨0, 0, W, H⟩, cs⟩ calls
      (newOperation ⟨⟨0, 0, W, H⟩, cs⟩) hstyle
  have hn1 : (newOperation (⟨⟨0, 0, W, H⟩, cs⟩ : Config)).minX = (W : ℚ) + 1 := by
    simp [newOperation, Config.width]
  have hn2 : (newOperation (⟨⟨0, 0, W, H⟩, cs⟩ : Config)).minY = (H : ℚ) + 1 := by
    simp [newOperation, Config.height]
  have hbox := doBox_of_initial_box W H cs
    (calls.foldl (qapply ⟨⟨0, 0, W, H⟩, cs⟩) (newOperation ⟨⟨0, 0, W, H⟩, cs⟩))
    hW hH (e1.trans hn1) (e2.trans hn2) (e3.trans rfl) (e4.trans rfl) (e5.trans rfl)
  obtain ⟨hc1, hc2⟩ := chunksWithin_full_box W H cs hW hH hcs
  refine ⟨hbox, ?_, ?_⟩
  · show chunksWithin _ _ = _
    rw [hbox, hc1]
  · show chunksWithin _ _ ≠ _
    rw [hbox, hc1]
    exact hc2

/-- Witness for the amended C10 theorem: on the 1000x1000 canvas, a queue
holding one SetColor call still sends Do to a nonempty chunk list. -/
theorem do_empty_queue_visits_all_chunks_witness :
    doChunks ⟨⟨0, 0, 1000, 1000⟩, 500⟩
        ([QCall.qSetColor 3].foldl (qapply ⟨⟨0, 0, 1000, 1000⟩, 500⟩)
          (newOperation ⟨⟨0, 0, 1000, 1000⟩, 500⟩)) ≠ [] := by
  refine (do_empty_queue_visits_all_chunks 1000 1000 500 [QCall.qSetColor 3]
    (by omega) (by omega) (by omega) ?_).2.2
  intro q hq
  obtain rfl := List.mem_singleton.mp hq
  rfl

/-- Go error values: a tagged base error or fmt.Errorf wrapping of two
errors, as produced by the aggregation in checkErrors. -/
inductive Err where
  | tag (n : Nat)
  | wrap (a b : Err)
deriving DecidableEq

/-- The on-disk artifact for one chunk key: missing (not an error: a blank
chunk), a stored encoded canvas, or an unreadable/corrupt artifact whose
decode fails. Canvas pixel data is the abstract payload of the external
Canvas collaborator and is carried as an opaque token. -/
inductive DiskCell where
  | absent
  | stored (data : Nat)
  | corrupt
deriving DecidableEq

/-- The chunk artifact store, keyed by chunk coordinates. -/
abbrev Disk := List ((Int × Int) × DiskCell)

/-- Association-list lookup by key, first match wins. -/
def alistGet {β : Type} : List ((Int × Int) × β) → (Int × Int) → Option β
  | [], _ => none
  | (k0, v) :: rest, k => if k0 = k then some v else alistGet rest k

/-- Association-list update: replace the first binding of the key, or
append a new binding when the key is absent. -/
def alistSet {β : Type} : List ((Int × Int) × β) → (Int × Int) → β → List ((Int × Int) × β)
  | [], k, v => [(k, v)]
  | (k0, v0) :: rest, k, v =>
    if k0 = k then (k, v) :: rest else (k0, v0) :: alistSet rest k v

/-- Read a disk cell; a missing binding is an absent artifact. -/
def diskGet (d : Disk) (k : Int × Int) : DiskCell := (alistGet d k).getD .absent

/-- Write a disk cell. -/
def diskSet (d : Disk) (k : Int × Int) (c : DiskCell) : Disk := alistSet d k c

/-- The blank canvas gg.NewContext creates for a chunk with no artifact. -/
def blankData : Nat := 0

/-- The per-chunk context: its key, an identity token standing for the Go
pointer identity of the context object, the optional in-memory canvas, and
the edited (dirty) flag. The two locks are concurrency devices and carry
no state visible to this model. -/
structure Ctx where
  x : Int
  y : Int
  chunkSize : Int
  ident : Nat
  img : Option Nat
  edited : Bool
deriving DecidableEq

/-- setEdited: mark the chunk as needing a disk write on unload. -/
def Ctx.setEdited (c : Ctx) : Ctx := { c with edited := true }

/-- newContext: no artifact is read when the context is created. -/
def newContext (k : Int × Int) (chunkSize : Int) (ident : Nat) : Ctx :=
  { x := k.1, y := k.2, chunkSize := chunkSize, ident := ident,
    img := none, edited := false }

/-- maybeLoadImage: under the load gate, materialize the canvas if absent:
a blank canvas when the artifact does not exist, the decoded canvas when
it does, and a surfaced error when decoding fails (the canvas stays
absent). -/
def maybeLoadImage (c : Ctx) (d : Disk) : Ctx × Option Err :=
  match c.img with
  | some _ => (c, none)
  | none =>
    match diskGet d (c.x, c.y) with
    | .absent => ({ c with img := some blankData }, none)
    | .stored data => ({ c with img := some data }, none)
    | .corrupt => (c, some (Err.tag 1))

/-- with(): take a shared in-use token (not part of the state model) and
materialize the canvas. -/
def Ctx.withUse (c : Ctx) (d : Disk) : Ctx × Option Err := maybeLoadImage c d

/-- unloadImage: nothing to do when not loaded; write the canvas to the
artifact iff edited, surfacing a save failure with the context and the
disk unchanged; on success (or when not edited) drop the in-memory
canvas. The save outcome comes from the environment. -/
def unloadImage (c : Ctx) (d : Disk) (saveErr : Option Err) :
    Ctx × Disk × Option Err :=
  match c.img with
  | none => (c, d, none)
  | some data =>
    if c.edited then
      match saveErr with
      | some e => (c, d, some e)
      | none => ({ c with img := none }, diskSet d (c.x, c.y) (.stored data), none)
    else ({ c with img := none }, d, none)

/-- The chunk cache: the registry mapping keys to contexts, and the
counter producing fresh identity tokens for newly constructed contexts. -/
structure CacheSt where
  chunks : List ((Int × Int) × Ctx)
  nextId : Nat
deriving DecidableEq

/-- The empty cache newCache returns. -/
def newCache : CacheSt := { chunks := [], nextId := 0 }

/-- cache.Load: find or insert the context for the key under the registry
lock, then acquire it with with(); the returned context pointer is never
nil in either branch, and the acquisition error is passed through. -/
def cacheLoad (m : Config) (s : CacheSt) (d : Disk) (k : Int × Int) :
    CacheSt × Option Ctx × Option Err :=
  match alistGet s.chunks k with
  | some ctx =>
    match ctx.withUse d with
    | (ctx1, e) => ({ s with chunks := alistSet s.chunks k ctx1 }, some ctx1, e)
  | none =>
    match (newContext k m.chunkSize s.nextId).withUse d with
    | (ctx1, e) =>
      ({ chunks := alistSet s.chunks k ctx1, nextId := s.nextId + 1 }, some ctx1, e)

/-- One firing of the background unload loop for a key: under the
exclusive gate, unloadImage; an error is only logged, the registry entry
is never removed. -/
def evictStep (s : CacheSt) (d : Disk) (k : Int × Int) (saveErr : Option Err) :
    CacheSt × Disk :=
  match alistGet s.chunks k with
  | none => (s, d)
  | some ctx =>
    match unloadImage ctx d saveErr with
    | (ctx1, d1, _) => ({ s with chunks := alistSet s.chunks k ctx1 }, d1)

/-- An apply-phase mutation of one loaded chunk: the canvas token changes
in place and the chunk is marked edited; absent chunks and absent canvases
are untouched. -/
def drawStep (s : CacheSt) (k : Int × Int) (data : Nat) : CacheSt :=
  match alistGet s.chunks k with
  | none => s
  | some ctx =>
    match ctx.img with
    | none => s
    | some _ =>
      { s with chunks := alistSet s.chunks k ({ ctx with img := some data }).setEdited }

/-- cache.Flush walking the registry: unloadImage on every context in
order, stopping at the first error with the remaining entries untouched;
keys are never removed. -/
def cacheFlushList (saveErrs : (Int × Int) → Option Err) :
    List ((Int × Int) × Ctx) → Disk →
    List ((Int × Int) × Ctx) × Disk × Option Err
  | [], d => ([], d, none)
  | (k, ctx) :: rest, d =>
    match unloadImage ctx d (saveErrs k) with
    | (ctx1, d1, some e) => ((k, ctx1) :: rest, d1, some e)
    | (ctx1, d1, none) =>
      match cacheFlushList saveErrs rest d1 with
      | (l2, d2, e2) => ((k, ctx1) :: l2, d2, e2)

/-- cache.Flush. -/
def cacheFlush (s : CacheSt) (d : Disk) (saveErrs : (Int × Int) → Option Err) :
    CacheSt × Disk × Option Err :=
  match cacheFlushList saveErrs s.chunks d with
  | (l1, d1, e1) => ({ s with chunks := l1 }, d1, e1)

/-- The events that touch the cache or a context over a cache's
lifetime. -/
inductive CEvent where
  | load (k : Int × Int)
  | evict (k : Int × Int) (saveErr : Option Err)
  | drawOn (k : Int × Int) (data : Nat)
  | flushAllEv (saveErrs : (Int × Int) → Option Err)

/-- One step of the cache lifetime. -/
def stepEv (m : Config) : CacheSt × Disk → CEvent → CacheSt × Disk
  | (s, d), .load k => ((cacheLoad m s d k).1, d)
  | (s, d), .evict k se => evictStep s d k se
  | (s, d), .drawOn k data => (drawStep s k data, d)
  | (s, d), .flushAllEv se =>
    let r := cacheFlush s d se
    (r.1, r.2.1)

/-- Run a sequence of cache-lifetime events. -/
def runEvents (m : Config) (sd : CacheSt × Disk) (evs : List CEvent) :
    CacheSt × Disk :=
  evs.foldl (stepEv m) sd

/-- The identity token registered for a key. -/
def identOf (s : CacheSt) (k : Int × Int) : Option Nat :=
  (alistGet s.chunks k).map Ctx.ident

/-- A dirty materialized context at key (0, 0). -/
def dirtyCtx : Ctx :=
  { x := 0, y := 0, chunkSize := 500, ident := 0, img := some 7, edited := true }

/-- C4 counterexample: a successful unload of a dirty chunk persists the
canvas and drops the in-memory handle, but the edited (dirty) flag is left
set rather than cleared as the claim states. -/
theorem unloadImage_keeps_edited :
    (unloadImage dirtyCtx [] none).1.edited = true ∧
    (unloadImage dirtyCtx [] none).1.img = none ∧
    diskGet (unloadImage dirtyCtx [] none).2.1 (0, 0) = DiskCell.stored 7 := by
  decide

/-- C4 amended: on a materialized chunk, the evictor's unloadImage
persists the canvas to the chunk's artifact iff the chunk is dirty, then
drops the in-memory handle; the dirty flag is left unchanged, not cleared;
a persist failure is surfaced with the context and the disk unchanged, so
the in-memory handle is retained. -/
theorem unloadImage_spec (c : Ctx) (d : Disk) (saveErr : Option Err) (data : Nat)
    (h : c.img = some data) :
    (c.edited = true → saveErr = none →
      unloadImage c d saveErr =
        ({ c with img := none }, diskSet d (c.x, c.y) (.stored data), none)) ∧
    (c.edited = false →
      unloadImage c d saveErr = ({ c with img := none }, d, none)) ∧
    (∀ e, c.edited = true → saveErr = some e →
      unloadImage c d saveErr = (c, d, some e)) := by
  refine ⟨fun he hs => ?_, fun he => ?_, fun e he hs => ?_⟩
  · unfold unloadImage
    rw [h, he, hs]
    simp
  · unfold unloadImage
    rw [h, he]
    simp
  · unfold unloadImage
    rw [h, he, hs]
    simp

/-- A clean materialized context. -/
def cleanCtx : Ctx :=
  { x := 2, y := 3, chunkSize := 500, ident := 1, img := some 5, edited := false }

/-- Witness for the amended C4 theorem: unloading a clean materialized
chunk drops the handle and writes nothing. -/
theorem unloadImage_spec_witness :
    unloadImage cleanCtx [] none = ({ cleanCtx with img := none }, [], none) :=
  (unloadImage_spec cleanCtx [] none 5 rfl).2.1 rfl

theorem alistGet_set_self {β : Type} (l : List ((Int × Int) × β))
    (k : Int × Int) (v : β) : alistGet (alistSet l k v) k = some v := by
  induction l with
  | nil => simp [alistGet, alistSet]
  | cons p rest ih =>
    rcases p with ⟨k0, v0⟩
    by_cases hk : k0 = k
    · simp [alistSet, alistGet, hk]
    · simp [alistSet, alistGet, hk, ih]

theorem alistGet_set_ne {β : Type} (l : List ((Int × Int) × β))
    (k k0 : Int × Int) (v : β) (h : k ≠ k0) :
    alistGet (alistSet l k v) k0 = alistGet l k0 := by
  induction l with
  | nil => simp [alistGet, alistSet, h]
  | cons p rest ih =>
    rcases p with ⟨k1, v1⟩
    by_cases hk : k1 = k
    · subst hk
      simp [alistSet, alistGet, h]
    · simp [alistSet, alistGet, hk, ih]

theorem withUse_frame (c : Ctx) (d : Disk) :
    (c.withUse d).1.ident = c.ident ∧
    (c.withUse d).1.edited = c.edited ∧
    (c.withUse d).1.x = c.x ∧
    (c.withUse d).1.y = c.y := by
  unfold Ctx.withUse maybeLoadImage
  cases c.img with
  | some v => exact ⟨rfl, rfl, rfl, rfl⟩
  | none => cases diskGet d (c.x, c.y) <;> exact ⟨rfl, rfl, rfl, rfl⟩

theorem unloadImage_frame (c : Ctx) (d : Disk) (se : Option Err) :
    (unloadImage c d se).1.ident = c.ident ∧
    (unloadImage c d se).1.edited = c.edited ∧
    (unloadImage c d se).1.x = c.x ∧
    (unloadImage c d se).1.y = c.y := by
  unfold unloadImage
  cases c.img with
  | none => exact ⟨rfl, rfl, rfl, rfl⟩
  | some data =>
    cases he : c.edited
    · simp [he]
    · cases se <;> simp [he]

theorem cacheLoad_identOf (m : Config) (s : CacheSt) (d : Disk)
    (k k0 : Int × Int) (i : Nat) (h : identOf s k0 = some i) :
    identOf (cacheLoad m s d k).1 k0 = some i := by
  unfold cacheLoad
  cases hg : alistGet s.chunks k with
  | some ctx =>
    show identOf ⟨alistSet s.chunks k (ctx.withUse d).1, s.nextId⟩ k0 = some i
    unfold identOf
    by_cases hk : k = k0
    · subst hk
      rw [alistGet_set_self]
      show some (ctx.withUse d).1.ident = some i
      rw [(withUse_frame ctx d).1]
      have h2 : Option.map Ctx.ident (alistGet s.chunks k) = some i := h
      rw [hg] at h2
      exact h2
    · rw [alistGet_set_ne _ _ _ _ hk]
      exact h
  | none =>
    show identOf
      ⟨alistSet s.chunks k ((newContext k m.chunkSize s.nextId).withUse d).1,
        s.nextId + 1⟩ k0 = some i
    unfold identOf
    by_cases hk : k = k0
    · subst hk
      unfold identOf at h
      rw [hg] at h
      simp at h
    · rw [alistGet_set_ne _ _ _ _ hk]
      exact h

theorem evictStep_identOf (s : CacheSt) (d : Disk) (k k0 : Int × Int)
    (se : Option Err) (i : Nat) (h : identOf s k0 = some i) :
    identOf (evictStep s d k se).1 k0 = some i := by
  unfold evictStep
  cases hg : alistGet s.chunks k with
  | none => exact h
  | some ctx =>
    show identOf ⟨alistSet s.chunks k (unloadImage ctx d se).1, s.nextId⟩ k0 = some i
    unfold identOf
    by_cases hk : k = k0
    · subst hk
      rw [alistGet_set_self]
      show some (unloadImage ctx d se).1.ident = some i
      rw [(unloadImage_frame ctx d se).1]
      have h2 : Option.map Ctx.ident (alistGet s.chunks k) = some i := h
      rw [hg] at h2
      exact h2
    · rw [alistGet_set_ne _ _ _ _ hk]
      exact h

theorem drawStep_identOf (s : CacheSt) (k k0 : Int × Int) (data : Nat)
    (i : Nat) (h : identOf s k0 = some i) :
    identOf (drawStep s k data) k0 = some i := by
  unfold drawStep
  split
  · exact h
  split
  · exact h
  next c heq o v hi =>
    unfold identOf
    by_cases hk : k = k0
    · subst hk
      rw [alistGet_set_self]
      have h2 : Option.map Ctx.ident (alistGet s.chunks k) = some i := h
      rw [heq] at h2
      exact h2
    · rw [alistGet_set_ne _ _ _ _ hk]
      exact h

theorem cacheFlushList_keyIdent (se : (Int × Int) → Option Err)
    (l : List ((Int × Int) × Ctx)) (d : Disk) :
    (cacheFlushList se l d).1.map (fun p => (p.1, p.2.ident)) =
      l.map (fun p => (p.1, p.2.ident)) := by
  induction l generalizing d with
  | nil => rfl
  | cons p rest ih =>
    rcases p with ⟨k, ctx⟩
    unfold cacheFlushList
    rcases hu : unloadImage ctx d (se k) with ⟨ctx1, d1, e1⟩
    have hid : ctx1.ident = ctx.ident := by
      have h1 := congrArg (fun q => Ctx.ident q.1) hu
      exact h1.symm.trans (unloadImage_frame ctx d (se k)).1
    cases e1 with
    | some err => simp [hid]
    | none => simp [hid, ih d1]

theorem alistGet_ident_congr (l1 l2 : List ((Int × Int) × Ctx))
    (h : l1.map (fun p => (p.1, p.2.ident)) = l2.map (fun p => (p.1, p.2.ident)))
    (k : Int × Int) :
    (alistGet l1 k).map Ctx.ident = (alistGet l2 k).map Ctx.ident := by
  induction l1 generalizing l2 with
  | nil =>
    cases l2 with
    | nil => rfl
    | cons q rest2 => simp at h
  | cons p rest ih =>
    cases l2 with
    | nil => simp at h
    | cons q rest2 =>
      rcases p with ⟨k1, c1⟩
      rcases q with ⟨k2, c2⟩
      simp only [List.map_cons, List.cons.injEq, Prod.mk.injEq] at h
      obtain ⟨⟨hk, hi⟩, hrest⟩ := h
      subst hk
      unfold alistGet
      by_cases hkk : k1 = k
      · simp [hkk, hi]
      · simp [hkk, ih rest2 hrest]

theorem flushStep_identOf (s : CacheSt) (d : Disk)
    (se : (Int × Int) → Option Err) (k0 : Int × Int) (i : Nat)
    (h : identOf s k0 = some i) :
    identOf (cacheFlush s d se).1 k0 = some i := by
  show Option.map Ctx.ident (alistGet (cacheFlushList se s.chunks d).1 k0) = some i
  rw [alistGet_ident_congr _ _ (cacheFlushList_keyIdent se s.chunks d) k0]
  exact h

theorem identOf_stepEv (m : Config) (sd : CacheSt × Disk) (e : CEvent)
    (k0 : Int × Int) (i : Nat) (h : identOf sd.1 k0 = some i) :
    identOf (stepEv m sd e).1 k0 = some i := by
  rcases sd with ⟨s, d⟩
  cases e with
  | load k => exact cacheLoad_identOf m s d k k0 i h
  | evict k se => exact evictStep_identOf s d k k0 se i h
  | drawOn k data => exact drawStep_identOf s k k0 data i h
  | flushAllEv se => exact flushStep_identOf s d se k0 i h

theorem identOf_runEvents (m : Config) (sd : CacheSt × Disk)
    (evs : List CEvent) (k0 : Int × Int) (i : Nat)
    (h : identOf sd.1 k0 = some i) :
    identOf (runEvents m sd evs).1 k0 = some i := by
  induction evs generalizing sd with
  | nil => exact h
  | cons e rest ih => exact ih (stepEv m sd e) (identOf_stepEv m sd e k0 i h)

/-- C7: over any sequence of cache-lifetime events (loads, background
evictions, draw mutations, flushes), a registered key keeps its context
identity forever (the registry only grows and never replaces a context);
a Load of a registered key returns exactly the registered context; and
after any Load the registered identity equals the identity of the
returned context, so every Load of the same key over the cache's lifetime
returns the same context object. -/
theorem cache_context_identity (m : Config) (sd : CacheSt × Disk)
    (evs : List CEvent) (k : Int × Int) :
    (∀ i, identOf sd.1 k = some i → identOf (runEvents m sd evs).1 k = some i) ∧
    (∀ i, identOf sd.1 k = some i →
      ((cacheLoad m sd.1 sd.2 k).2.1).map Ctx.ident = some i) ∧
    identOf (cacheLoad m sd.1 sd.2 k).1 k =
      ((cacheLoad m sd.1 sd.2 k).2.1).map Ctx.ident := by
  refine ⟨fun i h => identOf_runEvents m sd evs k i h, fun i h => ?_, ?_⟩
  · rcases sd with ⟨s, d⟩
    unfold cacheLoad
    cases hg : alistGet s.chunks k with
    | none =>
      unfold identOf at h
      rw [hg] at h
      simp at h
    | some ctx =>
      show some (ctx.withUse d).1.ident = some i
      rw [(withUse_frame ctx d).1]
      have h2 : Option.map Ctx.ident (alistGet s.chunks k) = some i := h
      rw [hg] at h2
      exact h2
  · rcases sd with ⟨s, d⟩
    unfold cacheLoad
    cases hg : alistGet s.chunks k with
    | none =>
      show identOf
        ⟨alistSet s.chunks k ((newContext k m.chunkSize s.nextId).withUse d).1,
          s.nextId + 1⟩ k =
        Option.map Ctx.ident (some ((newContext k m.chunkSize s.nextId).withUse d).1)
      unfold identOf
      rw [alistGet_set_self]
    | some ctx =>
      show identOf ⟨alistSet s.chunks k (ctx.withUse d).1, s.nextId⟩ k =
        Option.map Ctx.ident (some ((ctx.withUse d).1))
      unfold identOf
      rw [alistGet_set_self]

/-- Witness for the C7 theorem: concretely, loading key (0,0) into the
empty cache, evicting it, then loading it again returns a context with
the same identity 0. -/
theorem cache_context_identity_witness :
    identOf (runEvents cfg1000 (newCache, []) [CEvent.load (0, 0),
      CEvent.evict (0, 0) none]).1 (0, 0) = some 0 ∧
    ((cacheLoad cfg1000 (runEvents cfg1000 (newCache, [])
        [CEvent.load (0, 0), CEvent.evict (0, 0) none]).1
      (runEvents cfg1000 (newCache, []) [CEvent.load (0, 0),
        CEvent.evict (0, 0) none]).2 (0, 0)).2.1).map Ctx.ident = some 0 := by
  have h0 : identOf (runEvents cfg1000 (newCache, []) [CEvent.load (0, 0)]).1
      (0, 0) = some 0 := by decide
  have h1 := (cache_context_identity cfg1000
    (runEvents cfg1000 (newCache, []) [CEvent.load (0, 0)])
    [CEvent.evict (0, 0) none] (0, 0)).1 0 h0
  have h2 := (cache_context_identity cfg1000
    (runEvents cfg1000 (newCache, []) [CEvent.load (0, 0), CEvent.evict (0, 0) none])
    [] (0, 0)).2.1 0 h1
  exact ⟨h1, h2⟩

/-- The loop body of checkErrors: skip nil errors, keep the first non-nil
error as the base, wrap every later non-nil error onto the accumulator
(fmt.Errorf with the accumulated error wrapped and the new one appended). -/
def combineErr (ferr err : Option Err) : Option Err :=
  match err with
  | none => ferr
  | some e =>
    match ferr with
    | none => some e
    | some f => some (Err.wrap f e)

/-- checkErrors: drain the error channel, folding left to right in arrival
order. -/
def checkErrors (errs : List (Option Err)) : Option Err :=
  errs.foldl combineErr none

/-- One Do worker draining its share of the chunk channel: every non-nil
per-chunk apply error is sent, and the worker continues with its next
chunk after an error. -/
def workerRun (applyRes : (Int × Int) → Option Err) :
    List (Int × Int) → List Err
  | [] => []
  | k :: rest =>
    match applyRes k with
    | some e => e :: workerRun applyRes rest
    | none => workerRun applyRes rest

/-- The value Do returns, as a function of the per-chunk results in
arrival order: the channel receives exactly the non-nil results, and
checkErrors drains it. -/
def doError (results : List (Option Err)) : Option Err :=
  checkErrors ((results.filterMap id).map some)

theorem foldl_combineErr_some (l : List Err) (f : Err) :
    (l.map some).foldl combineErr (some f) = some (l.foldl Err.wrap f) := by
  induction l generalizing f with
  | nil => rfl
  | cons e rest ih => exact ih (Err.wrap f e)

theorem checkErrors_map_some (l : List Err) :
    checkErrors (l.map some) =
      (match l with
      | [] => none
      | e :: es => some (es.foldl Err.wrap e)) := by
  cases l with
  | nil => rfl
  | cons e es => exact foldl_combineErr_some es e

/-- C6: Do's aggregate error is nil iff no per-chunk application produced
an error; otherwise the non-nil errors are folded left to right in arrival
order, the first as the base and each later error wrapped onto the
accumulated value; and a worker that errors on one chunk still processes
all of its remaining chunks. -/
theorem do_error_aggregation (results : List (Option Err))
    (f : (Int × Int) → Option Err) (k : Int × Int)
    (rest : List (Int × Int)) :
    (doError results = none ↔ ∀ r ∈ results, r = none) ∧
    (∀ e es, results.filterMap id = e :: es →
      doError results = some (es.foldl Err.wrap e)) ∧
    workerRun f (k :: rest) = (f k).toList ++ workerRun f rest := by
  refine ⟨?_, fun e es hl => ?_, ?_⟩
  · cases hl : results.filterMap id with
    | nil =>
      have h0 : doError results = none := by
        unfold doError
        rw [hl]
        rfl
      rw [h0]
      constructor
      · intro _ r hr
        exact List.filterMap_eq_nil_iff.mp hl r hr
      · intro _
        rfl
    | cons e es =>
      have h0 : doError results = some (es.foldl Err.wrap e) := by
        unfold doError
        rw [hl]
        exact checkErrors_map_some (e :: es)
      rw [h0]
      constructor
      · intro hc
        exact absurd hc (by simp)
      · intro hall
        have h1 : results.filterMap id = [] :=
          List.filterMap_eq_nil_iff.mpr (fun a ha => by rw [hall a ha]; rfl)
        rw [hl] at h1
        exact absurd h1 (by simp)
  · unfold doError
    rw [hl]
    exact checkErrors_map_some (e :: es)
  · show (match f k with
      | some e => e :: workerRun f rest
      | none => workerRun f rest) = (f k).toList ++ workerRun f rest
    cases f k <;> rfl

/-- Witness for the C6 theorem: three per-chunk results nil, e1, e2
aggregate to wrap(e1, e2), and a worker failing on its first chunk still
drains its second. -/
theorem do_error_aggregation_witness :
    doError [none, some (Err.tag 1), some (Err.tag 2)] =
      some (Err.wrap (Err.tag 1) (Err.tag 2)) ∧
    workerRun (fun k => if k = (0, 0) then some (Err.tag 1) else none)
      [(0, 0), (1, 0)] = [Err.tag 1] := by
  constructor
  · exact (do_error_aggregation [none, some (Err.tag 1), some (Err.tag 2)]
      (fun _ => none) (0, 0) []).2.1 (Err.tag 1) [Err.tag 2] (by decide)
  · rw [(do_error_aggregation [] (fun k => if k = (0, 0) then some (Err.tag 1) else none)
      (0, 0) [(1, 0)]).2.2]
    decide

/-- The events of one per-chunk apply call, in order: the Load, the
replayed actions, and the Done releasing the in-use token. -/
inductive PathEv where
  | loadEv
  | doneEv
  | actEv (a : Action)
deriving DecidableEq

/-- Count the Done events of a trace. -/
def countDone : List PathEv → Nat
  | [] => 0
  | PathEv.doneEv :: rest => countDone rest + 1
  | _ :: rest => countDone rest

/-- The queue replay inside apply: actions are applied in order; a setMask
whose sub-read of the mask image fails aborts the replay with that error;
every other action replays and the loop continues. The sub-read outcomes
are supplied by the environment, indexed by queue position. -/
def replayQueue (maskErr : Nat → Option Err) :
    Nat → List Action → List PathEv × Option Err
  | _, [] => ([], none)
  | i, a :: rest =>
    match a with
    | Action.setMask _ =>
      match maskErr i with
      | some e => ([], some e)
      | none =>
        match replayQueue maskErr (i + 1) rest with
        | (t, r) => (PathEv.actEv a :: t, r)
    | _ =>
      match replayQueue maskErr (i + 1) rest with
      | (t, r) => (PathEv.actEv a :: t, r)

theorem replayQueue_cons_setMask (maskErr : Nat → Option Err) (i : Nat)
    (other : Nat) (rest : List Action) :
    replayQueue maskErr i (Action.setMask other :: rest) =
      (match maskErr i with
      | some e => ([], some e)
      | none =>
        (PathEv.actEv (Action.setMask other) :: (replayQueue maskErr (i + 1) rest).1,
          (replayQueue maskErr (i + 1) rest).2)) := by
  rfl

theorem replayQueue_no_done (maskErr : Nat → Option Err) (i : Nat)
    (queue : List Action) :
    countDone (replayQueue maskErr i queue).1 = 0 := by
  induction queue generalizing i with
  | nil => rfl
  | cons a rest ih =>
    cases a
    case setMask other =>
      rw [replayQueue_cons_setMask]
      cases maskErr i with
      | some e => rfl
      | none => exact ih (i + 1)
    all_goals exact ih (i + 1)

/-- apply for one chunk: Load the chunk (the returned context pointer is
never nil), defer the Done release, return the load error when there is
one, otherwise replay the whole queue; the deferred Done runs at exit on
every path. -/
def applyChunk (m : Config) (s : CacheSt) (d : Disk) (k : Int × Int)
    (maskErr : Nat → Option Err) (queue : List Action) :
    List PathEv × Option Err :=
  match (cacheLoad m s d k).2.2 with
  | some e => ([PathEv.loadEv, PathEv.doneEv], some e)
  | none =>
    match replayQueue maskErr 0 queue with
    | (t, r) => (PathEv.loadEv :: t ++ [PathEv.doneEv], r)

/-- C8: the per-chunk apply releases the chunk exactly once on every
path: when Load itself errors, when the replay aborts on a setMask
sub-read error, and on full success, its trace holds exactly one Done;
and the context cache.Load returns (on which Done is invoked) is never
nil. -/
theorem applyChunk_done_exactly_once (m : Config) (s : CacheSt) (d : Disk)
    (k : Int × Int) (maskErr : Nat → Option Err) (queue : List Action) :
    countDone (applyChunk m s d k maskErr queue).1 = 1 ∧
    (cacheLoad m s d k).2.1 ≠ none := by
  constructor
  · show countDone (match (cacheLoad m s d k).2.2 with
      | some e => ([PathEv.loadEv, PathEv.doneEv], some e)
      | none =>
        match replayQueue maskErr 0 queue with
        | (t, r) => (PathEv.loadEv :: t ++ [PathEv.doneEv], r)).1 = 1
    cases (cacheLoad m s d k).2.2 with
    | some e => rfl
    | none =>
      show countDone ((replayQueue maskErr 0 queue).1 ++ [PathEv.doneEv]) = 1
      have h1 : ∀ l : List PathEv,
          countDone (l ++ [PathEv.doneEv]) = countDone l + 1 := by
        intro l
        induction l with
        | nil => rfl
        | cons a rest ih => cases a <;> simp [countDone, ih]
      rw [h1, replayQueue_no_done]
  · unfold cacheLoad
    cases alistGet s.chunks k <;> simp

/-- The edited (dirty) flag registered for a key. -/
def editedOf (s : CacheSt) (k : Int × Int) : Bool :=
  ((alistGet s.chunks k).map Ctx.edited).getD false

/-- The logical pixel data of a chunk: the in-memory canvas when resident,
otherwise what materialization would produce from the disk. -/
def logicalData (s : CacheSt) (d : Disk) (k : Int × Int) : Nat :=
  match (alistGet s.chunks k).bind Ctx.img with
  | some data => data
  | none =>
    match diskGet d k with
    | DiskCell.stored data => data
    | _ => blankData

/-- Every registered context carries the key it is registered under, as
cache.Load guarantees by construction. -/
def wellKeyed (s : CacheSt) : Prop :=
  ∀ k ctx, alistGet s.chunks k = some ctx → ctx.x = k.1 ∧ ctx.y = k.2

/-- The read loop shared by Image and Mask: for every enumerated chunk,
load it, composite the extracted bitmap into the destination, release;
abort with the first load error. -/
def readLoop (m : Config) (d : Disk) (ext : Ctx → Nat) :
    CacheSt → List (Int × Int) → List ((Int × Int) × Nat) →
    CacheSt × List ((Int × Int) × Nat) × Option Err
  | s, [], dst => (s, dst, none)
  | s, k :: rest, dst =>
    match cacheLoad m s d k with
    | (s1, _, some e) => (s1, dst, some e)
    | (s1, octx, none) =>
      readLoop m d ext s1 rest (dst ++ [(k, (octx.map ext).getD blankData)])

/-- Mimage.Image over the cache model: composite every chunk within r. -/
def imageRead (m : Config) (s : CacheSt) (d : Disk) (r : Rectangle) :
    CacheSt × List ((Int × Int) × Nat) × Option Err :=
  readLoop m d (fun c => c.img.getD blankData) s (chunksWithin m r) []

/-- Mimage.Mask: the identical traversal sourcing each chunk's
alpha-derived mask; the derivation is the external Canvas capability
AsMask, a parameter of the model. -/
def maskRead (asMask : Nat → Nat) (m : Config) (s : CacheSt) (d : Disk)
    (r : Rectangle) :
    CacheSt × List ((Int × Int) × Nat) × Option Err :=
  readLoop m d (fun c => asMask (c.img.getD blankData)) s (chunksWithin m r) []

/-- Mimage.AtOk: out-of-bounds coordinates return the zero color without
loading anything; otherwise load the chunk and read the pixel at the
chunk-local offset. -/
def atOk (m : Config) (s : CacheSt) (d : Disk) (x y : Int) :
    CacheSt × Option (Nat × Int × Int) × Option Err :=
  if (toChunk m x y).2.2 = false then (s, none, none)
  else
    match cacheLoad m s d ((toChunk m x y).1, (toChunk m x y).2.1) with
    | (s1, _, some e) => (s1, none, some e)
    | (s1, octx, none) =>
      (s1, some ((octx.map (fun c => c.img.getD blankData)).getD blankData,
        x - (toChunk m x y).1 * m.chunkSize,
        y - (toChunk m x y).2.1 * m.chunkSize), none)

theorem maybeLoadImage_logical (c : Ctx) (d : Disk) :
    (match (maybeLoadImage c d).1.img with
      | some data => data
      | none =>
        match diskGet d (c.x, c.y) with
        | DiskCell.stored data => data
        | _ => blankData) =
    (match c.img with
      | some data => data
      | none =>
        match diskGet d (c.x, c.y) with
        | DiskCell.stored data => data
        | _ => blankData) := by
  unfold maybeLoadImage
  cases hci : c.img with
  | some v => simp [hci]
  | none => cases hdk : diskGet d (c.x, c.y) <;> simp [hci, hdk]

theorem cacheLoad_read_frame (m : Config) (s : CacheSt) (d : Disk)
    (k k0 : Int × Int) (hs : wellKeyed s) :
    editedOf (cacheLoad m s d k).1 k0 = editedOf s k0 ∧
    logicalData (cacheLoad m s d k).1 d k0 = logicalData s d k0 := by
  unfold cacheLoad
  cases hg : alistGet s.chunks k with
  | some ctx =>
    have hkey := hs k ctx hg
    have hxy : (ctx.x, ctx.y) = k := by
      rw [hkey.1, hkey.2]
    by_cases hk : k = k0
    · subst hk
      constructor
      · unfold editedOf
        rw [alistGet_set_self, hg]
        show (ctx.withUse d).1.edited = ctx.edited
        exact (withUse_frame ctx d).2.1
      · unfold logicalData
        rw [alistGet_set_self, hg, ← hxy]
        exact maybeLoadImage_logical ctx d
    · constructor
      · unfold editedOf
        rw [alistGet_set_ne _ _ _ _ hk]
      · unfold logicalData
        rw [alistGet_set_ne _ _ _ _ hk]
  | none =>
    by_cases hk : k = k0
    · subst hk
      constructor
      · unfold editedOf
        rw [alistGet_set_self, hg]
        show ((newContext k m.chunkSize s.nextId).withUse d).1.edited = false
        exact (withUse_frame (newContext k m.chunkSize s.nextId) d).2.1
      · unfold logicalData
        rw [alistGet_set_self, hg]
        exact maybeLoadImage_logical (newContext k m.chunkSize s.nextId) d
    · constructor
      · unfold editedOf
        rw [alistGet_set_ne _ _ _ _ hk]
      · unfold logicalData
        rw [alistGet_set_ne _ _ _ _ hk]

theorem cacheLoad_wellKeyed (m : Config) (s : CacheSt) (d : Disk)
    (k : Int × Int) (hs : wellKeyed s) : wellKeyed (cacheLoad m s d k).1 := by
  unfold cacheLoad
  cases hg : alistGet s.chunks k with
  | some ctx =>
    intro k1 ctx1 h1
    by_cases hk : k = k1
    · subst hk
      rw [alistGet_set_self] at h1
      have h2 := hs k ctx hg
      have h3 : (ctx.withUse d).1 = ctx1 := Option.some.inj h1
      rw [← h3, (withUse_frame ctx d).2.2.1, (withUse_frame ctx d).2.2.2]
      exact h2
    · rw [alistGet_set_ne _ _ _ _ hk] at h1
      exact hs k1 ctx1 h1
  | none =>
    intro k1 ctx1 h1
    by_cases hk : k = k1
    · subst hk
      rw [alistGet_set_self] at h1
      have h3 : ((newContext k m.chunkSize s.nextId).withUse d).1 = ctx1 :=
        Option.some.inj h1
      rw [← h3,
        (withUse_frame (newContext k m.chunkSize s.nextId) d).2.2.1,
        (withUse_frame (newContext k m.chunkSize s.nextId) d).2.2.2]
      exact ⟨rfl, rfl⟩
    · rw [alistGet_set_ne _ _ _ _ hk] at h1
      exact hs k1 ctx1 h1

theorem readLoop_read_frame (m : Config) (d : Disk) (ext : Ctx → Nat)
    (ks : List (Int × Int)) (s : CacheSt) (dst : List ((Int × Int) × Nat))
    (hs : wellKeyed s) (k0 : Int × Int) :
    editedOf (readLoop m d ext s ks dst).1 k0 = editedOf s k0 ∧
    logicalData (readLoop m d ext s ks dst).1 d k0 = logicalData s d k0 := by
  induction ks generalizing s dst with
  | nil => exact ⟨rfl, rfl⟩
  | cons k rest ih =>
    show editedOf (match cacheLoad m s d k with
        | (s1, _, some e) => (s1, dst, some e)
        | (s1, octx, none) =>
          readLoop m d ext s1 rest
            (dst ++ [(k, (octx.map ext).getD blankData)])).1 k0 = editedOf s k0 ∧
      logicalData (match cacheLoad m s d k with
        | (s1, _, some e) => (s1, dst, some e)
        | (s1, octx, none) =>
          readLoop m d ext s1 rest
            (dst ++ [(k, (octx.map ext).getD blankData)])).1 d k0 = logicalData s d k0
    rcases hload : cacheLoad m s d k with ⟨s1, octx, e⟩
    have hframe : editedOf s1 k0 = editedOf s k0 ∧
        logicalData s1 d k0 = logicalData s d k0 := by
      have h1 := cacheLoad_read_frame m s d k k0 hs
      rw [hload] at h1
      exact h1
    have hwk : wellKeyed s1 := by
      have h2 := cacheLoad_wellKeyed m s d k hs
      rw [hload] at h2
      exact h2
    cases e with
    | some err => exact hframe
    | none =>
      have h3 := ih s1 (dst ++ [(k, (octx.map ext).getD blankData)]) hwk
      exact ⟨h3.1.trans hframe.1, h3.2.trans hframe.2⟩

theorem evictStep_no_write (s : CacheSt) (d : Disk) (k : Int × Int)
    (se : Option Err) (h : editedOf s k = false) :
    (evictStep s d k se).2 = d := by
  unfold evictStep
  cases hg : alistGet s.chunks k with
  | none => rfl
  | some ctx =>
    show (unloadImage ctx d se).2.1 = d
    have he : ctx.edited = false := by
      unfold editedOf at h
      rw [hg] at h
      exact h
    unfold unloadImage
    cases ctx.img with
    | none => rfl
    | some data => simp [he]

/-- C9: the read path never mutates image state: Image, Mask and AtOk
leave every chunk's dirty flag and logical pixel data unchanged (a load
may materialize a chunk, which copies disk content into memory without
changing it), and after a read alone a background eviction of a clean
chunk writes nothing to disk. -/
theorem readPath_no_mutation (m : Config) (s : CacheSt) (d : Disk)
    (r : Rectangle) (asMask : Nat → Nat) (x y : Int) (k : Int × Int)
    (se : Option Err) (hs : wellKeyed s) :
    (editedOf (imageRead m s d r).1 k = editedOf s k ∧
     logicalData (imageRead m s d r).1 d k = logicalData s d k) ∧
    (editedOf (maskRead asMask m s d r).1 k = editedOf s k ∧
     logicalData (maskRead asMask m s d r).1 d k = logicalData s d k) ∧
    (editedOf (atOk m s d x y).1 k = editedOf s k ∧
     logicalData (atOk m s d x y).1 d k = logicalData s d k) ∧
    (editedOf s k = false → (evictStep (imageRead m s d r).1 d k se).2 = d) := by
  have himg := readLoop_read_frame m d (fun c => c.img.getD blankData)
    (chunksWithin m r) s [] hs k
  have hmask := readLoop_read_frame m d (fun c => asMask (c.img.getD blankData))
    (chunksWithin m r) s [] hs k
  have hat : editedOf (atOk m s d x y).1 k = editedOf s k ∧
      logicalData (atOk m s d x y).1 d k = logicalData s d k := by
    unfold atOk
    by_cases hv : (toChunk m x y).2.2 = false
    · rw [if_pos hv]
      exact ⟨rfl, rfl⟩
    · rw [if_neg hv]
      rcases hload : cacheLoad m s d ((toChunk m x y).1, (toChunk m x y).2.1)
        with ⟨s1, octx, e⟩
      have hframe : editedOf s1 k = editedOf s k ∧
          logicalData s1 d k = logicalData s d k := by
        have h1 := cacheLoad_read_frame m s d
          ((toChunk m x y).1, (toChunk m x y).2.1) k hs
        rw [hload] at h1
        exact h1
      cases e with
      | some err => exact hframe
      | none => exact hframe
  refine ⟨himg, hmask, hat, fun hcl => ?_⟩
  apply evictStep_no_write
  show editedOf (readLoop m d (fun c => c.img.getD blankData) s
    (chunksWithin m r) []).1 k = false
  rw [himg.1]
  exact hcl

/-- Witness for the C9 theorem: reading a region of a fresh 1000x1000
canvas leaves the dirty flag of chunk (0,0) false, its logical data
blank, and a following eviction writes nothing. -/
theorem readPath_no_mutation_witness :
    editedOf (imageRead cfg1000 newCache [] ⟨0, 0, 700, 700⟩).1 (0, 0) = false ∧
    logicalData (imageRead cfg1000 newCache [] ⟨0, 0, 700, 700⟩).1 [] (0, 0) =
      blankData ∧
    (evictStep (imageRead cfg1000 newCache [] ⟨0, 0, 700, 700⟩).1 [] (0, 0)
      none).2 = [] := by
  have hwk : wellKeyed newCache := by
    intro k ctx h
    simp [newCache, alistGet] at h
  have h := readPath_no_mutation cfg1000 newCache [] ⟨0, 0, 700, 700⟩
    (fun n => n) 0 0 (0, 0) none hwk
  refine ⟨?_, ?_, h.2.2.2 (by decide)⟩
  · rw [h.1.1]
    decide
  · rw [h.1.2]
    decide

end Mimage
